import Mathlib

/-!
Verification of the tiktok-monitor core against its specification.

The development shallowly embeds the three core components of the repository:

* `StateManager` (src/state/state-manager.ts): the persisted dedup/state store,
  whose in-memory `Map`s are modelled as insertion-ordered association lists
  (JavaScript `Map.set` replaces the value in place, keeping the key's
  position, and otherwise appends).
* `WebhookClient` (src/webhook/webhook-client.ts): `createPayload` and the
  `sendWithRetry` loop, the network being abstracted as a function from the
  attempt index to that attempt's outcome.
* `PollingScheduler` (src/scheduler/polling-scheduler.ts): `runOnce`,
  `checkAuthor`, `processVideo` and `retryFailedWebhooks`, with the injected
  collaborators (scraper fetches, webhook sends, the clock) passed as explicit
  function arguments, and state-store mutations applied to the embedded store.

JavaScript `Date` values are modelled by their epoch-millisecond time value
(`Int`, the value `Date.prototype.getTime` returns).  `toISOString` is an
injective rendering of that time value into a string and `new Date(string)`
its parse; the embedding renders the time value in signed decimal rather than
calendar form, which preserves exactly the equality, ordering and
round-tripping structure the code relies on.
-/

set_option autoImplicit false

namespace TiktokMonitor

/-! ### Decimal time-value codec (model of `toISOString` / `new Date(iso)`) -/

/-- One decimal digit rendered as a character, `0 ↦ '0'`, …, `9 ↦ '9'`. -/
def digitToChar (d : Nat) : Char := Char.ofNat (48 + d)

/-- Parse one decimal digit character. -/
def charToDigit (c : Char) : Option Nat :=
  if 48 ≤ c.toNat ∧ c.toNat ≤ 57 then some (c.toNat - 48) else none

/-- Render a natural number in decimal, most significant digit first. -/
def encodeNat (n : Nat) : List Char :=
  if n = 0 then ['0'] else ((Nat.digits 10 n).reverse.map digitToChar)

/-- Parse a run of decimal digit characters, accumulating left to right. -/
def decodeNatAux : List Char → Nat → Option Nat
  | [], acc => some acc
  | c :: cs, acc =>
    match charToDigit c with
    | none => none
    | some d => decodeNatAux cs (acc * 10 + d)

/-- Parse a non-empty run of decimal digit characters. -/
def decodeNat (cs : List Char) : Option Nat :=
  if cs.isEmpty then none else decodeNatAux cs 0

/-- Model of `Date.prototype.toISOString`: an injective string rendering of the
time value (signed decimal stand-in for the ISO-8601 calendar form). -/
def isoOfTime (t : Int) : String :=
  if t < 0 then "-" ++ String.mk (encodeNat (-t).toNat) else String.mk (encodeNat t.toNat)

/-- Model of `new Date(s).getTime()` on serialized time values: the partial
inverse of `isoOfTime`; `none` stands for an `Invalid Date`. -/
def timeOfIso (s : String) : Option Int :=
  if s.data.head? = some '-' then (decodeNat s.data.tail).map (fun n => -(Int.ofNat n))
  else (decodeNat s.data).map (fun n => Int.ofNat n)

theorem charToDigit_digitToChar : ∀ d : Nat, d < 10 → charToDigit (digitToChar d) = some d := by
  decide

theorem decodeNatAux_digits (ds : List Nat) : ∀ acc : Nat, (∀ d ∈ ds, d < 10) →
    decodeNatAux (ds.map digitToChar) acc = some (ds.foldl (fun a d => a * 10 + d) acc) := by
  induction ds with
  | nil => intro acc _; rfl
  | cons d ds ih =>
    intro acc h
    have hd : d < 10 := h d (List.mem_cons_self d ds)
    simp only [List.map_cons, decodeNatAux, charToDigit_digitToChar d hd, List.foldl_cons]
    exact ih (acc * 10 + d) (fun x hx => h x (List.mem_cons_of_mem d hx))

theorem foldr_ofDigits (L : List Nat) :
    L.foldr (fun d a => a * 10 + d) 0 = Nat.ofDigits 10 L := by
  induction L with
  | nil => simp [Nat.ofDigits]
  | cons d L ih =>
    simp only [List.foldr_cons, ih, Nat.ofDigits_cons]
    ring

theorem decodeNat_encodeNat (n : Nat) : decodeNat (encodeNat n) = some n := by
  by_cases h : n = 0
  · subst h; decide
  · have hne : Nat.digits 10 n ≠ [] := Nat.digits_ne_nil_iff_ne_zero.mpr h
    have hrevne : (Nat.digits 10 n).reverse ≠ [] := by
      simpa using hne
    have hlt : ∀ d ∈ (Nat.digits 10 n).reverse, d < 10 := by
      intro d hd
      exact Nat.digits_lt_base (by norm_num) (List.mem_reverse.mp hd)
    have hempty : ((Nat.digits 10 n).reverse.map digitToChar).isEmpty = false := by
      cases hrv : (Nat.digits 10 n).reverse with
      | nil => exact absurd hrv hrevne
      | cons a l => simp [hrv]
    rw [encodeNat, if_neg h, decodeNat, hempty, if_neg (by simp),
      decodeNatAux_digits _ 0 hlt, List.foldl_reverse, foldr_ofDigits, Nat.ofDigits_digits]

theorem encodeNat_head_isDigit (n : Nat) :
    ∃ d, d < 10 ∧ (encodeNat n).head? = some (digitToChar d) := by
  by_cases h : n = 0
  · subst h; exact ⟨0, by norm_num, rfl⟩
  · have hne : Nat.digits 10 n ≠ [] := Nat.digits_ne_nil_iff_ne_zero.mpr h
    rw [encodeNat, if_neg h]
    cases hrv : (Nat.digits 10 n).reverse with
    | nil => exact absurd (by simpa using hrv) hne
    | cons a l =>
      refine ⟨a, ?_, by simp⟩
      exact Nat.digits_lt_base (by norm_num) (List.mem_reverse.mp (hrv ▸ List.mem_cons_self a l))

theorem digitToChar_ne_minus : ∀ d : Nat, d < 10 → digitToChar d ≠ '-' := by decide

/-- Round trip: parsing a rendered time value recovers it exactly. -/
theorem timeOfIso_isoOfTime (t : Int) : timeOfIso (isoOfTime t) = some t := by
  by_cases ht : t < 0
  · have hpos : 0 ≤ -t := by omega
    rw [isoOfTime, if_pos ht, timeOfIso]
    have hdata : ("-" ++ String.mk (encodeNat (-t).toNat)).data
        = '-' :: encodeNat (-t).toNat := by
      rw [String.data_append]; rfl
    rw [hdata]
    simp only [List.head?_cons, List.tail_cons, if_pos rfl, decodeNat_encodeNat]
    rw [Option.map_some']
    have h2 : ((-t).toNat : Int) = -t := Int.toNat_of_nonneg (by omega)
    have h3 : -(Int.ofNat (-t).toNat) = t := by
      rw [show Int.ofNat (-t).toNat = ((-t).toNat : Int) from rfl, h2]; ring
    exact congrArg some h3
  · rw [isoOfTime, if_neg ht, timeOfIso]
    have hdata : (String.mk (encodeNat t.toNat)).data = encodeNat t.toNat := rfl
    obtain ⟨d, hd, hhead⟩ := encodeNat_head_isDigit t.toNat
    have hne : (encodeNat t.toNat).head? ≠ some '-' := by
      rw [hhead]
      intro hcontra
      exact digitToChar_ne_minus d hd (Option.some.inj hcontra)
    rw [hdata, if_neg hne, decodeNat_encodeNat]
    rw [Option.map_some']
    exact congrArg some (Int.toNat_of_nonneg (by omega))

/-! ### Data model (src/state/state-manager.ts, src/scraper/tiktok-scraper.ts) -/

/-- Webhook delivery status of a processed video (`"pending" | "sent" | "failed"`). -/
inductive WebhookStatus where
  | pending
  | sent
  | failed
deriving DecidableEq, Repr

/-- Engagement statistics attached to a video (`stats` field). -/
structure VideoStats where
  plays : Nat
  likes : Nat
  comments : Nat
  shares : Nat
deriving DecidableEq, Repr

/-- `ProcessedVideo` record of the state manager: one per content item ever seen. -/
structure ProcessedVideo where
  videoId : String
  author : String
  processedAt : Int
  webhookStatus : WebhookStatus
  retryCount : Nat
deriving DecidableEq, Repr

/-- `VideoMetadata` as returned by the scraper collaborator. -/
structure VideoMetadata where
  id : String
  url : String
  downloadUrl : String
  description : String
  author : String
  publishedAt : Int
  thumbnailUrl : Option String
  duration : Option Nat
  stats : Option VideoStats
deriving DecidableEq, Repr

/-- Payload sent to the webhook endpoint (`WebhookPayload` interface). -/
structure WebhookPayload where
  videoId : String
  videoUrl : String
  downloadUrl : String
  description : String
  author : String
  publishedAt : String
  thumbnailUrl : Option String
  duration : Option Nat
  stats : Option VideoStats
deriving DecidableEq, Repr

/-- Result of a webhook send operation (`WebhookResult` interface). -/
structure WebhookResult where
  success : Bool
  statusCode : Option Nat
  error : Option String
  attempts : Nat
deriving DecidableEq, Repr

/-- JavaScript `Map.set`: if the key is present its value is replaced in place
(keeping the key's position in iteration order), otherwise the pair is appended. -/
def mapSet {β : Type} (k : String) (v : β) : List (String × β) → List (String × β)
  | [] => [(k, v)]
  | (k2, v2) :: rest => if k2 = k then (k, v) :: rest else (k2, v2) :: mapSet k v rest

/-- In-memory `State` of the state manager: the two insertion-ordered maps. -/
structure State where
  processedVideos : List (String × ProcessedVideo)
  lastCheckTimes : List (String × Int)
deriving DecidableEq, Repr

/-- The empty state a fresh `StateManager` starts with. -/
def State.empty : State := ⟨[], []⟩

/-- Maximum number of history entries ever returned (`DEFAULT_HISTORY_LIMIT`). -/
def DEFAULT_HISTORY_LIMIT : Nat := 100

namespace StateManager

/-- `isProcessed(videoId)`: key lookup in the `processedVideos` map. -/
def isProcessed (st : State) (videoId : String) : Bool :=
  (st.processedVideos.lookup videoId).isSome

/-- `markProcessed(video)`: upsert of the record keyed by its `videoId` (the
source's `processedAt instanceof Date` ternary collapses to the identity in the
typed embedding), followed by `save()`. -/
def markProcessed (st : State) (video : ProcessedVideo) : State :=
  { st with processedVideos := mapSet video.videoId video st.processedVideos }

/-- Comparator of `getHistory`: `processedAt` descending (most recent first). -/
def historyLe (a b : ProcessedVideo) : Bool := decide (b.processedAt ≤ a.processedAt)

/-- `getHistory(limit = 100)`: values sorted by `processedAt` descending,
truncated to `min(limit, DEFAULT_HISTORY_LIMIT)`. -/
def getHistory (st : State) (limit : Nat := DEFAULT_HISTORY_LIMIT) : List ProcessedVideo :=
  (((st.processedVideos.map Prod.snd).mergeSort historyLe).take
    (min limit DEFAULT_HISTORY_LIMIT))

/-- `getPendingRetries()`: all records whose `webhookStatus` is `"failed"`. -/
def getPendingRetries (st : State) : List ProcessedVideo :=
  (st.processedVideos.map Prod.snd).filter (fun video => video.webhookStatus = .failed)

/-- `getLastCheckTime(author)`: `none` models the `null` returned when absent. -/
def getLastCheckTime (st : State) (author : String) : Option Int :=
  st.lastCheckTimes.lookup author

/-- `updateLastCheckTime(author)`: stores the current clock value (`new Date()`),
passed as the explicit argument `now`, then `save()`. -/
def updateLastCheckTime (st : State) (author : String) (now : Int) : State :=
  { st with lastCheckTimes := mapSet author now st.lastCheckTimes }

/-- `updateWebhookStatus(videoId, status, retryCount?)`: mutates the record in
place when present and then calls `save()`; when the id has no record nothing
happens.  The returned `Bool` records whether `save()` was invoked. -/
def updateWebhookStatus (st : State) (videoId : String) (status : WebhookStatus)
    (retryCount : Option Nat) : State × Bool :=
  match st.processedVideos.lookup videoId with
  | none => (st, false)
  | some video =>
    ({ st with processedVideos :=
        (mapSet videoId
          { video with
            webhookStatus := status,
            retryCount := retryCount.getD video.retryCount }
          st.processedVideos) }, true)

end StateManager

/-! ### Association-map lemmas -/

theorem lookup_mapSet_self {β : Type} (k : String) (v : β) (l : List (String × β)) :
    (mapSet k v l).lookup k = some v := by
  induction l with
  | nil => simp [mapSet, List.lookup]
  | cons p rest ih =>
    obtain ⟨k2, v2⟩ := p
    by_cases h : k2 = k
    · simp [mapSet, h, List.lookup]
    · simp only [mapSet, if_neg h, List.lookup]
      have : (k == k2) = false := by
        simp [beq_iff_eq]
        exact fun hc => h hc.symm
      simp [this, ih]

theorem lookup_mapSet_ne {β : Type} (k k2 : String) (v : β) (l : List (String × β))
    (h : k ≠ k2) : (mapSet k v l).lookup k2 = l.lookup k2 := by
  have hbeq : (k2 == k) = false := by
    simp only [beq_eq_false_iff_ne]
    exact fun hc => h hc.symm
  induction l with
  | nil => simp [mapSet, List.lookup, hbeq]
  | cons p rest ih =>
    obtain ⟨k3, v3⟩ := p
    by_cases h3 : k3 = k
    · subst h3
      simp [mapSet, List.lookup, hbeq]
    · simp only [mapSet, if_neg h3, List.lookup]
      rw [ih]

theorem lookup_isSome_mapSet {β : Type} (k k2 : String) (v : β) (l : List (String × β))
    (h : (l.lookup k2).isSome) : ((mapSet k v l).lookup k2).isSome := by
  by_cases hk : k = k2
  · subst hk; rw [lookup_mapSet_self]; rfl
  · rw [lookup_mapSet_ne k k2 v l hk]; exact h

theorem mapSet_mapSet_self {β : Type} (k : String) (v w : β) (l : List (String × β)) :
    mapSet k v (mapSet k w l) = mapSet k v l := by
  induction l with
  | nil => simp [mapSet]
  | cons p rest ih =>
    obtain ⟨k2, v2⟩ := p
    by_cases h : k2 = k
    · simp [mapSet, h]
    · simp [mapSet, if_neg h, ih]

/-! ### WebhookClient (src/webhook/webhook-client.ts) -/

/-- Outcome of one `axios.post` network attempt: a 2xx response resolves with a
status, any network error or non-2xx response rejects with an optional response
status and an error message. -/
inductive AttemptOutcome where
  | ok (status : Nat)
  | fail (status : Option Nat) (msg : String)
deriving DecidableEq, Repr

/-- Whether an attempt outcome is a success. -/
def AttemptOutcome.isOk : AttemptOutcome → Bool
  | .ok _ => true
  | .fail _ _ => false

/-- The `WebhookResult` built from an attempt outcome when the loop finishes on
that attempt, with `attempts` the number of attempts made so far. -/
def resultOfOutcome : AttemptOutcome → Nat → WebhookResult
  | .ok status, k => ⟨true, some status, none, k⟩
  | .fail status msg, k => ⟨false, status, some msg, k⟩

namespace WebhookClient

/-- `createPayload(video)`: pure transform from `VideoMetadata` to the wire
payload; `publishedAt` is serialized with `toISOString`. -/
def createPayload (video : VideoMetadata) : WebhookPayload :=
  { videoId := video.id
    videoUrl := video.url
    downloadUrl := video.downloadUrl
    description := video.description
    author := video.author
    publishedAt := isoOfTime video.publishedAt
    thumbnailUrl := video.thumbnailUrl
    duration := video.duration
    stats := video.stats }

/-- The `for` loop of `sendWithRetry`, with the network abstracted as the map
`outcome` from the 0-indexed loop counter to that attempt's result.  `attempt`
is the loop counter, `remaining` the iterations left (`totalAttempts - attempt`),
`attempts` the attempt counter incremented at the top of each iteration, and
`last` the `lastResult` variable.  Returns the `WebhookResult`, the backoff
sleeps requested in milliseconds (`2^attempt * 1000`, skipped after the final
iteration), and the list of loop counters at which a send was attempted.  The
`last.getD` default encodes the source's `lastResult!` assertion, reachable only
with zero iterations, which `sendWithRetry` never requests. -/
def sendRetryLoop (outcome : Nat → AttemptOutcome) :
    Nat → Nat → Nat → Option WebhookResult → WebhookResult × List Nat × List Nat
  | _, 0, _, last => (last.getD ⟨false, none, none, 0⟩, [], [])
  | attempt, r + 1, attempts, _ =>
    match outcome attempt with
    | .ok status => (⟨true, some status, none, attempts + 1⟩, [], [attempt])
    | .fail status msg =>
      let lr : WebhookResult := ⟨false, status, some msg, attempts + 1⟩
      let rest := sendRetryLoop outcome (attempt + 1) r (attempts + 1) (some lr)
      if r = 0 then (rest.1, rest.2.1, attempt :: rest.2.2)
      else (rest.1, (2 ^ attempt * 1000) :: rest.2.1, attempt :: rest.2.2)

/-- `sendWithRetry(payload, maxRetries)`: `totalAttempts = maxRetries + 1`
iterations starting from loop counter 0 with no previous result. -/
def sendWithRetry (outcome : Nat → AttemptOutcome) (maxRetries : Nat) :
    WebhookResult × List Nat × List Nat :=
  sendRetryLoop outcome 0 (maxRetries + 1) 0 none

theorem sendRetryLoop_all_fail (outcome : Nat → AttemptOutcome) :
    ∀ (r attempt attempts : Nat) (last : Option WebhookResult), 0 < r →
    (∀ i, i < r → (outcome (attempt + i)).isOk = false) →
    (sendRetryLoop outcome attempt r attempts last).1
        = resultOfOutcome (outcome (attempt + (r - 1))) (attempts + r)
      ∧ (sendRetryLoop outcome attempt r attempts last).2.2 = List.range' attempt r := by
  intro r
  induction r with
  | zero => intro _ _ _ h; omega
  | succ r ih =>
    intro attempt attempts last _ hfail
    have h0 : (outcome attempt).isOk = false := by simpa using hfail 0 (by omega)
    cases houtcome : outcome attempt with
    | ok status => rw [houtcome] at h0; simp [AttemptOutcome.isOk] at h0
    | fail status msg =>
      by_cases hr : r = 0
      · subst hr
        simp [sendRetryLoop, houtcome, resultOfOutcome, List.range']
      · have hrec := ih (attempt + 1) (attempts + 1) (some ⟨false, status, some msg, attempts + 1⟩)
          (by omega)
          (fun i hi => by
            have := hfail (i + 1) (by omega)
            simpa [Nat.add_assoc, Nat.add_comm 1 i] using this)
        simp only [sendRetryLoop, houtcome, if_neg hr]
        have harith : attempt + 1 + (r - 1) = attempt + (r + 1 - 1) := by omega
        have harith2 : attempts + 1 + r = attempts + (r + 1) := by omega
        rw [List.range'_succ]
        exact ⟨by rw [hrec.1, harith, harith2], by rw [hrec.2]⟩

theorem sendRetryLoop_first_ok (outcome : Nat → AttemptOutcome) :
    ∀ (j r attempt attempts : Nat) (last : Option WebhookResult), j < r →
    (∀ i, i < j → (outcome (attempt + i)).isOk = false) →
    (outcome (attempt + j)).isOk = true →
    (sendRetryLoop outcome attempt r attempts last).1
        = resultOfOutcome (outcome (attempt + j)) (attempts + j + 1)
      ∧ (sendRetryLoop outcome attempt r attempts last).2.2
        = List.range' attempt (j + 1) := by
  intro j
  induction j with
  | zero =>
    intro r attempt attempts last hjr _ hok
    obtain ⟨r, rfl⟩ : ∃ r2, r = r2 + 1 := ⟨r - 1, by omega⟩
    cases houtcome : outcome attempt with
    | fail status msg =>
      rw [Nat.add_zero, houtcome] at hok
      simp [AttemptOutcome.isOk] at hok
    | ok status =>
      simp only [Nat.add_zero]
      rw [houtcome]
      simp [sendRetryLoop, houtcome, resultOfOutcome, List.range']
  | succ j ih =>
    intro r attempt attempts last hjr hfail hok
    obtain ⟨r, rfl⟩ : ∃ r2, r = r2 + 1 := ⟨r - 1, by omega⟩
    have h0 : (outcome attempt).isOk = false := by simpa using hfail 0 (by omega)
    cases houtcome : outcome attempt with
    | ok status => rw [houtcome] at h0; simp [AttemptOutcome.isOk] at h0
    | fail status msg =>
      have hrec := ih r (attempt + 1) (attempts + 1)
        (some ⟨false, status, some msg, attempts + 1⟩) (by omega)
        (fun i hi => by
          have := hfail (i + 1) (by omega)
          simpa [Nat.add_assoc, Nat.add_comm 1 i] using this)
        (by
          have : attempt + 1 + j = attempt + (j + 1) := by omega
          rw [this]
          exact hok)
      have hr0 : r ≠ 0 := by omega
      simp only [sendRetryLoop, houtcome, if_neg hr0]
      have harith : attempt + 1 + j = attempt + (j + 1) := by omega
      have harith2 : attempts + 1 + j + 1 = attempts + (j + 1) + 1 := by omega
      rw [List.range'_succ]
      exact ⟨by rw [hrec.1, harith, harith2], by rw [hrec.2]⟩

theorem attempts_resultOfOutcome (o : AttemptOutcome) (k : Nat) :
    (resultOfOutcome o k).attempts = k := by cases o <;> rfl

theorem success_resultOfOutcome (o : AttemptOutcome) (k : Nat) :
    (resultOfOutcome o k).success = o.isOk := by cases o <;> rfl

end WebhookClient

/-- C1.  `sendWithRetry` performs at most `maxRetries + 1` send attempts (the
attempt trace has exactly `attempts` entries and `attempts ≤ maxRetries + 1`);
if the first successful attempt is attempt `j` (0-indexed), it returns
immediately with `success = true` and `attempts = j + 1`, having attempted
exactly attempts `0..j`; and if every attempt fails it returns the outcome of
the last attempt with `attempts = maxRetries + 1` exactly. -/
theorem sendWithRetry_spec (outcome : Nat → AttemptOutcome) (maxRetries : Nat) :
    ((WebhookClient.sendWithRetry outcome maxRetries).2.2.length
        = (WebhookClient.sendWithRetry outcome maxRetries).1.attempts
      ∧ (WebhookClient.sendWithRetry outcome maxRetries).1.attempts ≤ maxRetries + 1)
    ∧ (∀ j, j ≤ maxRetries → (∀ i, i < j → (outcome i).isOk = false) →
        (outcome j).isOk = true →
        (WebhookClient.sendWithRetry outcome maxRetries).1.success = true
        ∧ (WebhookClient.sendWithRetry outcome maxRetries).1
            = resultOfOutcome (outcome j) (j + 1)
        ∧ (WebhookClient.sendWithRetry outcome maxRetries).2.2 = List.range' 0 (j + 1))
    ∧ ((∀ i, i ≤ maxRetries → (outcome i).isOk = false) →
        (WebhookClient.sendWithRetry outcome maxRetries).1.success = false
        ∧ (WebhookClient.sendWithRetry outcome maxRetries).1
            = resultOfOutcome (outcome maxRetries) (maxRetries + 1)) := by
  have hfirst : ∀ j, j ≤ maxRetries → (∀ i, i < j → (outcome i).isOk = false) →
      (outcome j).isOk = true →
      (WebhookClient.sendWithRetry outcome maxRetries).1
          = resultOfOutcome (outcome j) (j + 1)
      ∧ (WebhookClient.sendWithRetry outcome maxRetries).2.2 = List.range' 0 (j + 1) := by
    intro j hj hfail hok
    have h := WebhookClient.sendRetryLoop_first_ok outcome j (maxRetries + 1) 0 0 none
      (by omega) (fun i hi => by simpa using hfail i hi) (by simpa using hok)
    simpa [WebhookClient.sendWithRetry] using h
  have hall : (∀ i, i ≤ maxRetries → (outcome i).isOk = false) →
      (WebhookClient.sendWithRetry outcome maxRetries).1
          = resultOfOutcome (outcome maxRetries) (maxRetries + 1)
      ∧ (WebhookClient.sendWithRetry outcome maxRetries).2.2
          = List.range' 0 (maxRetries + 1) := by
    intro hfail
    have h := WebhookClient.sendRetryLoop_all_fail outcome (maxRetries + 1) 0 0 none
      (by omega) (fun i hi => by simpa using hfail i (by omega))
    simpa [WebhookClient.sendWithRetry] using h
  refine ⟨?_, ?_, ?_⟩
  · by_cases hex : ∃ j, j ≤ maxRetries ∧ (outcome j).isOk = true
    · have hfind := Nat.find_spec hex
      have hmin := fun i (hi : i < Nat.find hex) => Nat.find_min hex hi
      have hfailbelow : ∀ i, i < Nat.find hex → (outcome i).isOk = false := by
        intro i hi
        rcases Bool.eq_false_or_eq_true (outcome i).isOk with h | h
        · exact absurd ⟨by omega, h⟩ (hmin i hi)
        · exact h
      obtain ⟨h1, h2⟩ := hfirst (Nat.find hex) hfind.1 hfailbelow hfind.2
      rw [h1, h2, WebhookClient.attempts_resultOfOutcome, List.length_range']
      omega
    · have hfail : ∀ i, i ≤ maxRetries → (outcome i).isOk = false := by
        intro i hi
        rcases Bool.eq_false_or_eq_true (outcome i).isOk with h | h
        · exact absurd ⟨i, hi, h⟩ hex
        · exact h
      obtain ⟨h1, h2⟩ := hall hfail
      rw [h1, h2, WebhookClient.attempts_resultOfOutcome, List.length_range']
      omega
  · intro j hj hfail hok
    obtain ⟨h1, h2⟩ := hfirst j hj hfail hok
    refine ⟨?_, h1, h2⟩
    rw [h1, WebhookClient.success_resultOfOutcome, hok]
  · intro hfail
    obtain ⟨h1, _⟩ := hall hfail
    refine ⟨?_, h1⟩
    rw [h1, WebhookClient.success_resultOfOutcome, hfail maxRetries (by omega)]

/-- Witness for C1: against an always-failing endpoint with `maxRetries = 3`
the result has `attempts = 4` and `success = false`; against an endpoint that
succeeds on the second attempt with `maxRetries = 3` the result has
`success = true` and `attempts = 2`. -/
theorem sendWithRetry_spec_witness :
    ((WebhookClient.sendWithRetry (fun _ => .fail (some 500) "err") 3).1.attempts = 4
      ∧ (WebhookClient.sendWithRetry (fun _ => .fail (some 500) "err") 3).1.success = false)
    ∧ ((WebhookClient.sendWithRetry
          (fun i => if i = 1 then .ok 200 else .fail none "err") 3).1.success = true
      ∧ (WebhookClient.sendWithRetry
          (fun i => if i = 1 then .ok 200 else .fail none "err") 3).1.attempts = 2) := by
  have h1 := (sendWithRetry_spec (fun _ => AttemptOutcome.fail (some 500) "err") 3).2.2
    (fun i _ => rfl)
  have h2 := (sendWithRetry_spec (fun i => if i = 1 then AttemptOutcome.ok 200
      else AttemptOutcome.fail none "err") 3).2.1 1 (by omega)
    (fun i hi => by
      have : i = 0 := by omega
      subst this
      rfl)
    (by rfl)
  exact ⟨⟨by rw [h1.2]; rfl, h1.1⟩, ⟨h2.1, by rw [h2.2.1]; rfl⟩⟩

/-! ### PollingScheduler (src/scheduler/polling-scheduler.ts)

The scheduler's collaborators are injected as functions: `sendR` models
`webhookClient.sendWithRetry` (from payload and max-retry budget to the
delivery result), `fetch` models `scraper.getLatestVideos(author, 10)`
(`Except.error` models a thrown fetch error), `getVideoById` models
`scraper.getVideoById`.  The clock readings (`new Date()`) are passed as
explicit arguments; logger output and the inter-author jitter delays carry no
state and are not part of the embedded state. -/

/-- Events recorded by `processVideo`, in the order the source performs them. -/
inductive SchedEvent where
  | markedProcessed (video : ProcessedVideo)
  | webhookSent (payload : WebhookPayload) (result : WebhookResult)
  | statusUpdated (videoId : String) (status : WebhookStatus) (retryCount : Nat)
deriving DecidableEq, Repr

namespace PollingScheduler

/-- `processVideo(video, config)`: upsert a pending record (durably —
`markProcessed` saves before returning), build the payload, `sendWithRetry`,
then upsert the final status with `retryCount = result.attempts`. -/
def processVideo (sendR : WebhookPayload → Nat → WebhookResult) (maxRetries : Nat)
    (now : Int) (video : VideoMetadata) (st : State) : State × List SchedEvent :=
  let processedVideo : ProcessedVideo :=
    { videoId := video.id, author := video.author, processedAt := now,
      webhookStatus := .pending, retryCount := 0 }
  let st1 := StateManager.markProcessed st processedVideo
  let payload := WebhookClient.createPayload video
  let result := sendR payload maxRetries
  let finalStatus : WebhookStatus := if result.success then .sent else .failed
  let st2 := (StateManager.updateWebhookStatus st1 video.id finalStatus
    (some result.attempts)).1
  (st2, [.markedProcessed processedVideo, .webhookSent payload result,
         .statusUpdated video.id finalStatus result.attempts])

/-- The `newVideos.sort((a, b) => a.publishedAt.getTime() - b.publishedAt.getTime())`
call: sort ascending by publish time. -/
def sortByPublishedAt (videos : List VideoMetadata) : List VideoMetadata :=
  videos.mergeSort (fun a b => decide (a.publishedAt ≤ b.publishedAt))

/-- `checkAuthor(author, config)`: fetch result `videos` is filtered against
`isProcessed`, sorted oldest first, each new video is processed, and the
author's last-check time is updated (also on the zero-new-videos early return).
Returns the updated state and the videos delivered, in delivery order. -/
def checkAuthor (sendR : WebhookPayload → Nat → WebhookResult) (maxRetries : Nat)
    (now ts : Int) (author : String) (videos : List VideoMetadata) (st : State) :
    State × List VideoMetadata :=
  let newVideos := videos.filter (fun video => !StateManager.isProcessed st video.id)
  if newVideos.isEmpty then
    (StateManager.updateLastCheckTime st author ts, [])
  else
    let sorted := sortByPublishedAt newVideos
    let st2 := sorted.foldl (fun s video => (processVideo sendR maxRetries now video s).1) st
    (StateManager.updateLastCheckTime st2 author ts, sorted)

/-- The `for (const author of authors)` loop of `runOnce`: a thrown fetch is
caught (recorded as an `Except.error` outcome for that author) and the loop
continues with the next author and an unchanged state. -/
def pollLoop (sendR : WebhookPayload → Nat → WebhookResult)
    (fetch : String → Except String (List VideoMetadata)) (maxRetries : Nat)
    (now ts : Int) :
    List String → State → State × List (String × Except String (List VideoMetadata))
  | [], st => (st, [])
  | author :: rest, st =>
    match fetch author with
    | .error e =>
      let next := pollLoop sendR fetch maxRetries now ts rest st
      (next.1, (author, .error e) :: next.2)
    | .ok videos =>
      let checked := checkAuthor sendR maxRetries now ts author videos st
      let next := pollLoop sendR fetch maxRetries now ts rest checked.1
      (next.1, (author, .ok checked.2) :: next.2)

/-- `runOnce()`: with an empty author list it only logs
(`"No authors configured for monitoring"`) and returns; otherwise it runs the
per-author loop. -/
def runOnce (sendR : WebhookPayload → Nat → WebhookResult)
    (fetch : String → Except String (List VideoMetadata)) (maxRetries : Nat)
    (now ts : Int) (authors : List String) (st : State) :
    State × List (String × Except String (List VideoMetadata)) :=
  if authors.isEmpty then (st, [])
  else pollLoop sendR fetch maxRetries now ts authors st

/-- `retryFailedWebhooks()`: iterate over the snapshot of failed records;
skip records at or above the max-retry budget and records whose metadata can
no longer be fetched; otherwise retry with the remaining budget
`maxRetries - retryCount` and update the record with the cumulative count. -/
def retryFailedWebhooks (sendR : WebhookPayload → Nat → WebhookResult)
    (getVideoById : String → Option VideoMetadata) (maxRetries : Nat) (st : State) : State :=
  let pendingRetries := StateManager.getPendingRetries st
  pendingRetries.foldl
    (fun s video =>
      if maxRetries ≤ video.retryCount then s
      else
        match getVideoById video.videoId with
        | none => s
        | some videoMetadata =>
          let payload := WebhookClient.createPayload videoMetadata
          let result := sendR payload (maxRetries - video.retryCount)
          let newRetryCount := video.retryCount + result.attempts
          (StateManager.updateWebhookStatus s video.videoId
            (if result.success then .sent else .failed) (some newRetryCount)).1)
    st

theorem processVideo_lookup_ne (sendR : WebhookPayload → Nat → WebhookResult)
    (maxRetries : Nat) (now : Int) (video : VideoMetadata) (st : State) (id : String)
    (h : video.id ≠ id) :
    (processVideo sendR maxRetries now video st).1.processedVideos.lookup id
      = st.processedVideos.lookup id := by
  simp only [processVideo, StateManager.markProcessed, StateManager.updateWebhookStatus,
    lookup_mapSet_self]
  exact (lookup_mapSet_ne _ _ _ _ h).trans (lookup_mapSet_ne _ _ _ _ h)

theorem foldl_processVideo_lookup (sendR : WebhookPayload → Nat → WebhookResult)
    (maxRetries : Nat) (now : Int) (id : String) :
    ∀ (vs : List VideoMetadata) (st : State), (∀ v ∈ vs, v.id ≠ id) →
    ((vs.foldl (fun s video => (processVideo sendR maxRetries now video s).1)
        st).processedVideos).lookup id
      = st.processedVideos.lookup id := by
  intro vs
  induction vs with
  | nil => intro st _; rfl
  | cons v vs ih =>
    intro st h
    rw [List.foldl_cons, ih _ (fun w hw => h w (List.mem_cons_of_mem v hw)),
      processVideo_lookup_ne sendR maxRetries now v st id (h v (List.mem_cons_self v vs))]

end PollingScheduler

/-- C5.  For every new video handled by the scheduler's delivery path, a record
with `webhookStatus = pending` and `retryCount = 0` is upserted (durably, since
`markProcessed` saves before returning) strictly before the webhook send is
issued, and after `sendWithRetry` completes the same record holds status
`sent` (on success) or `failed` (on failure) with `retryCount` equal to the
number of attempts made. -/
theorem processVideo_spec (sendR : WebhookPayload → Nat → WebhookResult)
    (maxRetries : Nat) (now : Int) (video : VideoMetadata) (st : State) :
    (∃ i j, i < j
      ∧ (PollingScheduler.processVideo sendR maxRetries now video st).2.get? i
          = some (.markedProcessed ⟨video.id, video.author, now, .pending, 0⟩)
      ∧ (PollingScheduler.processVideo sendR maxRetries now video st).2.get? j
          = some (.webhookSent (WebhookClient.createPayload video)
              (sendR (WebhookClient.createPayload video) maxRetries)))
    ∧ (PollingScheduler.processVideo sendR maxRetries now video st).1.processedVideos.lookup
          video.id
        = some ⟨video.id, video.author, now,
            if (sendR (WebhookClient.createPayload video) maxRetries).success
              then .sent else .failed,
            (sendR (WebhookClient.createPayload video) maxRetries).attempts⟩ := by
  constructor
  · exact ⟨0, 1, by omega, rfl, rfl⟩
  · simp only [PollingScheduler.processVideo, StateManager.markProcessed,
      StateManager.updateWebhookStatus, lookup_mapSet_self]
    rfl

/-- Totality of the publish-time comparator. -/
theorem publishedLe_total (a b : VideoMetadata) :
    (decide (a.publishedAt ≤ b.publishedAt) || decide (b.publishedAt ≤ a.publishedAt)) = true := by
  rcases Int.le_total a.publishedAt b.publishedAt with h | h <;> simp [h]

/-- Transitivity of the publish-time comparator. -/
theorem publishedLe_trans (a b c : VideoMetadata)
    (hab : decide (a.publishedAt ≤ b.publishedAt) = true)
    (hbc : decide (b.publishedAt ≤ c.publishedAt) = true) :
    decide (a.publishedAt ≤ c.publishedAt) = true := by
  simp only [decide_eq_true_eq] at *
  omega

/-- C2.  One per-author poll step delivers exactly the fetched videos whose id
is not already recorded (as a permutation), in ascending publish-time order,
and the records of already-processed videos are left unchanged. -/
theorem checkAuthor_spec (sendR : WebhookPayload → Nat → WebhookResult)
    (maxRetries : Nat) (now ts : Int) (author : String) (videos : List VideoMetadata)
    (st : State) :
    ((PollingScheduler.checkAuthor sendR maxRetries now ts author videos st).2.Perm
        (videos.filter (fun video => !StateManager.isProcessed st video.id))
      ∧ List.Pairwise (fun a b => a.publishedAt ≤ b.publishedAt)
          (PollingScheduler.checkAuthor sendR maxRetries now ts author videos st).2)
    ∧ (∀ id, StateManager.isProcessed st id = true →
        (PollingScheduler.checkAuthor sendR maxRetries now ts author videos
            st).1.processedVideos.lookup id
          = st.processedVideos.lookup id) := by
  by_cases hempty :
      (videos.filter (fun video => !StateManager.isProcessed st video.id)).isEmpty
  · constructor
    · constructor
      · simp [PollingScheduler.checkAuthor, hempty, List.isEmpty_iff.mp hempty]
      · simp [PollingScheduler.checkAuthor, hempty]
    · intro id _
      simp [PollingScheduler.checkAuthor, hempty, StateManager.updateLastCheckTime]
  · have hperm : (PollingScheduler.sortByPublishedAt
        (videos.filter (fun video => !StateManager.isProcessed st video.id))).Perm
        (videos.filter (fun video => !StateManager.isProcessed st video.id)) :=
      List.mergeSort_perm _ _
    constructor
    · constructor
      · simpa [PollingScheduler.checkAuthor, hempty] using hperm
      · have hsorted := List.sorted_mergeSort
          publishedLe_trans publishedLe_total
          (videos.filter (fun video => !StateManager.isProcessed st video.id))
        simp only [PollingScheduler.checkAuthor, hempty, if_neg hempty]
        refine List.Pairwise.imp ?_ hsorted
        intro a b h
        simpa using h
    · intro id hid
      have hmem : ∀ v ∈ PollingScheduler.sortByPublishedAt
          (videos.filter (fun video => !StateManager.isProcessed st video.id)), v.id ≠ id := by
        intro v hv heq
        have hv2 := hperm.mem_iff.mp hv
        have := (List.mem_filter.mp hv2).2
        rw [heq, hid] at this
        simp at this
      simp only [PollingScheduler.checkAuthor, hempty, if_neg hempty,
        StateManager.updateLastCheckTime]
      exact PollingScheduler.foldl_processVideo_lookup sendR maxRetries now id _ st hmem

/-! ### Concrete sample inputs used by witnesses -/

/-- Builder for a sample scraped video. -/
def mkVideo (id author : String) (publishedAt : Int) : VideoMetadata :=
  ⟨id, "https://example.com/" ++ id, "https://dl.example.com/" ++ id, "desc", author,
    publishedAt, none, none, none⟩

/-- Builder for a sample stored record. -/
def mkRecord (id author : String) (processedAt : Int) (status : WebhookStatus)
    (retryCount : Nat) : ProcessedVideo :=
  ⟨id, author, processedAt, status, retryCount⟩

/-- A webhook collaborator that always succeeds on the first attempt. -/
def alwaysOkSend : WebhookPayload → Nat → WebhookResult := fun _ _ => ⟨true, some 200, none, 1⟩

/-- A webhook collaborator that always fails, reporting two attempts made. -/
def alwaysFailSend : WebhookPayload → Nat → WebhookResult :=
  fun _ _ => ⟨false, some 500, some "err", 2⟩

/-- A sample store holding one already-processed video `v1`. -/
def stOneProcessed : State := ⟨[("v1", mkRecord "v1" "a" 10 .sent 1)], []⟩

/-- Witness for C2: with `v1` already processed and `v2` new, the poll step
delivers exactly `v2` and leaves the record of `v1` untouched. -/
theorem checkAuthor_spec_witness :
    StateManager.isProcessed stOneProcessed "v1" = true
    ∧ (PollingScheduler.checkAuthor alwaysOkSend 3 100 200 "a"
        [mkVideo "v2" "a" 20, mkVideo "v1" "a" 10] stOneProcessed).1.processedVideos.lookup "v1"
      = some (mkRecord "v1" "a" 10 .sent 1)
    ∧ (PollingScheduler.checkAuthor alwaysOkSend 3 100 200 "a"
        [mkVideo "v2" "a" 20, mkVideo "v1" "a" 10] stOneProcessed).2.Perm
        [mkVideo "v2" "a" 20] := by
  have h := checkAuthor_spec alwaysOkSend 3 100 200 "a"
    [mkVideo "v2" "a" 20, mkVideo "v1" "a" 10] stOneProcessed
  refine ⟨by decide, ?_, ?_⟩
  · exact (h.2 "v1" (by decide)).trans (by decide)
  · exact h.1.1.trans (by decide)

/-- C8.  `runOnce` with an empty author list returns with the state unchanged
and no author outcomes (only a log); the per-author loop visits every
configured author exactly once, in order, whatever the fetch outcomes; and when
one author's fetch throws, the error is caught and recorded and the remaining
authors are processed exactly as they would have been without the failing
author. -/
theorem runOnce_spec (sendR : WebhookPayload → Nat → WebhookResult)
    (fetch : String → Except String (List VideoMetadata)) (maxRetries : Nat)
    (now ts : Int) :
    (∀ st : State, PollingScheduler.runOnce sendR fetch maxRetries now ts [] st = (st, []))
    ∧ (∀ (authors : List String) (st : State),
        ((PollingScheduler.pollLoop sendR fetch maxRetries now ts authors st).2.map
          Prod.fst) = authors)
    ∧ (∀ (author : String) (e : String) (rest : List String) (st : State),
        fetch author = .error e →
        PollingScheduler.pollLoop sendR fetch maxRetries now ts (author :: rest) st
          = ((PollingScheduler.pollLoop sendR fetch maxRetries now ts rest st).1,
             (author, .error e)
               :: (PollingScheduler.pollLoop sendR fetch maxRetries now ts rest st).2)) := by
  refine ⟨?_, ?_, ?_⟩
  · intro st
    rfl
  · intro authors
    induction authors with
    | nil => intro st; rfl
    | cons author rest ih =>
      intro st
      cases hfetch : fetch author with
      | error e => simp [PollingScheduler.pollLoop, hfetch, ih]
      | ok videos => simp [PollingScheduler.pollLoop, hfetch, ih]
  · intro author e rest st hfetch
    simp [PollingScheduler.pollLoop, hfetch]

/-- A fetch collaborator for the C8 witness: author `b` throws, others return
no videos. -/
def fetchFailB : String → Except String (List VideoMetadata) :=
  fun author => if author = "b" then .error "network error" else .ok []

/-- Witness for C8: with authors `[b, c]` and `b`'s fetch throwing, the empty
list is a no-op, every author still yields an outcome in order, and the loop on
`[b, c]` is the loop on `[c]` plus the recorded error for `b`. -/
theorem runOnce_spec_witness :
    PollingScheduler.runOnce alwaysOkSend fetchFailB 3 100 200 [] State.empty
      = (State.empty, [])
    ∧ ((PollingScheduler.pollLoop alwaysOkSend fetchFailB 3 100 200 ["b", "c"]
        State.empty).2.map Prod.fst) = ["b", "c"]
    ∧ PollingScheduler.pollLoop alwaysOkSend fetchFailB 3 100 200 ["b", "c"] State.empty
      = ((PollingScheduler.pollLoop alwaysOkSend fetchFailB 3 100 200 ["c"] State.empty).1,
         ("b", .error "network error")
           :: (PollingScheduler.pollLoop alwaysOkSend fetchFailB 3 100 200 ["c"]
              State.empty).2) := by
  have h := runOnce_spec alwaysOkSend fetchFailB 3 100 200
  exact ⟨h.1 State.empty, h.2.1 ["b", "c"] State.empty,
    h.2.2 "b" "network error" ["c"] State.empty (by rfl)⟩

/-! ### The retry sweep (C9) -/

/-- Store well-formedness maintained by all operations: keys are unique
(JavaScript `Map` keys are) and every record is stored under its own
`videoId`. -/
def State.WF (st : State) : Prop :=
  (st.processedVideos.map Prod.fst).Nodup
  ∧ ∀ p ∈ st.processedVideos, (p.2).videoId = p.1

theorem lookup_mem {β : Type} : ∀ (l : List (String × β)) (k : String) (v : β),
    l.lookup k = some v → (k, v) ∈ l := by
  intro l
  induction l with
  | nil => intro k v h; simp [List.lookup] at h
  | cons p rest ih =>
    intro k v h
    obtain ⟨k2, v2⟩ := p
    rw [List.lookup] at h
    cases hbeq : k == k2 with
    | true =>
      rw [hbeq] at h
      have hk : k = k2 := by simpa using hbeq
      have hv : v2 = v := by simpa using h
      subst hk
      subst hv
      exact List.mem_cons_self _ _
    | false =>
      rw [hbeq] at h
      exact List.mem_cons_of_mem _ (ih k v h)

/-- A single step of the `retryFailedWebhooks` loop body. -/
def retryStep (sendR : WebhookPayload → Nat → WebhookResult)
    (getVideoById : String → Option VideoMetadata) (maxRetries : Nat)
    (s : State) (video : ProcessedVideo) : State :=
  if maxRetries ≤ video.retryCount then s
  else
    match getVideoById video.videoId with
    | none => s
    | some videoMetadata =>
      let payload := WebhookClient.createPayload videoMetadata
      let result := sendR payload (maxRetries - video.retryCount)
      let newRetryCount := video.retryCount + result.attempts
      (StateManager.updateWebhookStatus s video.videoId
        (if result.success then .sent else .failed) (some newRetryCount)).1

theorem retryFailedWebhooks_eq_foldl (sendR : WebhookPayload → Nat → WebhookResult)
    (getVideoById : String → Option VideoMetadata) (maxRetries : Nat) (st : State) :
    PollingScheduler.retryFailedWebhooks sendR getVideoById maxRetries st
      = (StateManager.getPendingRetries st).foldl
          (retryStep sendR getVideoById maxRetries) st := by
  rfl

/-- Specification of the effect of one retry sweep on one stored record,
proved below to be what `retryFailedWebhooks` leaves at the record's key: only
`failed` records are touched; records at or above the max-retry budget and
records whose metadata cannot be re-fetched are skipped; the rest get the
outcome of a `sendWithRetry` with the remaining budget `maxRetries - retryCount`
and a retry count increased by the attempts made. -/
def retryRecordSpec (sendR : WebhookPayload → Nat → WebhookResult)
    (getVideoById : String → Option VideoMetadata) (maxRetries : Nat)
    (v : ProcessedVideo) : ProcessedVideo :=
  if v.webhookStatus = .failed then
    if maxRetries ≤ v.retryCount then v
    else
      match getVideoById v.videoId with
      | none => v
      | some videoMetadata =>
        let result := sendR (WebhookClient.createPayload videoMetadata)
          (maxRetries - v.retryCount)
        { v with
          webhookStatus := if result.success then .sent else .failed,
          retryCount := v.retryCount + result.attempts }
  else v

theorem updateWebhookStatus_lookup_ne (s : State) (id k : String)
    (status : WebhookStatus) (rc : Option Nat) (h : id ≠ k) :
    (StateManager.updateWebhookStatus s id status rc).1.processedVideos.lookup k
      = s.processedVideos.lookup k := by
  rw [StateManager.updateWebhookStatus]
  cases hl : s.processedVideos.lookup id with
  | none => rfl
  | some v => exact lookup_mapSet_ne id k _ _ h

theorem retryStep_lookup_ne (sendR : WebhookPayload → Nat → WebhookResult)
    (getVideoById : String → Option VideoMetadata) (maxRetries : Nat)
    (s : State) (video : ProcessedVideo) (k : String) (h : video.videoId ≠ k) :
    (retryStep sendR getVideoById maxRetries s video).processedVideos.lookup k
      = s.processedVideos.lookup k := by
  rw [retryStep]
  by_cases hcap : maxRetries ≤ video.retryCount
  · rw [if_pos hcap]
  · rw [if_neg hcap]
    cases hmeta : getVideoById video.videoId with
    | none => rfl
    | some videoMetadata => exact updateWebhookStatus_lookup_ne s video.videoId k _ _ h

theorem foldl_retryStep_lookup_ne (sendR : WebhookPayload → Nat → WebhookResult)
    (getVideoById : String → Option VideoMetadata) (maxRetries : Nat) (k : String) :
    ∀ (ps : List ProcessedVideo) (s : State), (∀ w ∈ ps, w.videoId ≠ k) →
    ((ps.foldl (retryStep sendR getVideoById maxRetries) s).processedVideos).lookup k
      = s.processedVideos.lookup k := by
  intro ps
  induction ps with
  | nil => intro s _; rfl
  | cons w ps ih =>
    intro s h
    rw [List.foldl_cons, ih _ (fun x hx => h x (List.mem_cons_of_mem w hx)),
      retryStep_lookup_ne sendR getVideoById maxRetries s w k (h w (List.mem_cons_self w ps))]

theorem retryStep_lookup_self (sendR : WebhookPayload → Nat → WebhookResult)
    (getVideoById : String → Option VideoMetadata) (maxRetries : Nat)
    (s : State) (v : ProcessedVideo) (hv : v.webhookStatus = .failed)
    (hl : s.processedVideos.lookup v.videoId = some v) :
    (retryStep sendR getVideoById maxRetries s v).processedVideos.lookup v.videoId
      = some (retryRecordSpec sendR getVideoById maxRetries v) := by
  rw [retryStep, retryRecordSpec, if_pos hv]
  by_cases hcap : maxRetries ≤ v.retryCount
  · rw [if_pos hcap, if_pos hcap, hl]
  · rw [if_neg hcap, if_neg hcap]
    cases hmeta : getVideoById v.videoId with
    | none => exact hl
    | some videoMetadata =>
      simp only [StateManager.updateWebhookStatus, hl]
      rw [lookup_mapSet_self]
      rfl

theorem foldl_retryStep_lookup_hit (sendR : WebhookPayload → Nat → WebhookResult)
    (getVideoById : String → Option VideoMetadata) (maxRetries : Nat) :
    ∀ (ps : List ProcessedVideo) (s : State) (v : ProcessedVideo), v ∈ ps →
    (ps.map (fun w => w.videoId)).Nodup →
    v.webhookStatus = .failed →
    s.processedVideos.lookup v.videoId = some v →
    ((ps.foldl (retryStep sendR getVideoById maxRetries) s).processedVideos).lookup v.videoId
      = some (retryRecordSpec sendR getVideoById maxRetries v) := by
  intro ps
  induction ps with
  | nil => intro s v hmem; simp at hmem
  | cons w ps ih =>
    intro s v hmem hnodup hfailed hl
    rcases List.mem_cons.mp hmem with heq | htail
    · subst heq
      rw [List.foldl_cons]
      have hrest : ∀ x ∈ ps, x.videoId ≠ v.videoId := by
        intro x hx heq2
        have : v.videoId ∈ ps.map (fun w => w.videoId) :=
          heq2 ▸ List.mem_map_of_mem (fun w => w.videoId) hx
        exact (List.nodup_cons.mp hnodup).1 this
      rw [foldl_retryStep_lookup_ne sendR getVideoById maxRetries v.videoId ps _ hrest]
      exact retryStep_lookup_self sendR getVideoById maxRetries s v hfailed hl
    · have hne : w.videoId ≠ v.videoId := by
        intro heq2
        have hv2 : v.videoId ∈ ps.map (fun w => w.videoId) :=
          List.mem_map_of_mem (fun w => w.videoId) htail
        rw [← heq2] at hv2
        exact (List.nodup_cons.mp hnodup).1 hv2
      rw [List.foldl_cons]
      exact ih _ v htail (List.nodup_cons.mp hnodup).2 hfailed
        ((retryStep_lookup_ne sendR getVideoById maxRetries s w v.videoId hne).trans hl)

theorem nodup_keys_eq {β : Type} : ∀ (l : List (String × β)), (l.map Prod.fst).Nodup →
    ∀ (k : String) (v w : β), (k, v) ∈ l → (k, w) ∈ l → v = w := by
  intro l
  induction l with
  | nil => intro _ k v w hv; simp at hv
  | cons p rest ih =>
    intro hnodup k v w hv hw
    rw [List.map_cons] at hnodup
    have hhead := (List.nodup_cons.mp hnodup).1
    have htail := (List.nodup_cons.mp hnodup).2
    rcases List.mem_cons.mp hv with hv1 | hv1 <;> rcases List.mem_cons.mp hw with hw1 | hw1
    · exact congrArg Prod.snd (hv1.trans hw1.symm)
    · exfalso
      apply hhead
      have hk : k = p.1 := congrArg Prod.fst hv1
      rw [hk] at hw1
      exact List.mem_map.mpr ⟨(p.1, w), hw1, rfl⟩
    · exfalso
      apply hhead
      have hk : k = p.1 := congrArg Prod.fst hw1
      rw [hk] at hv1
      exact List.mem_map.mpr ⟨(p.1, v), hv1, rfl⟩
    · exact ih htail k v w hv1 hw1

theorem pendingRetries_keys_nodup (st : State) (hwf : State.WF st) :
    ((StateManager.getPendingRetries st).map (fun w => w.videoId)).Nodup := by
  have hsub : ((StateManager.getPendingRetries st).map (fun w => w.videoId)).Sublist
      ((st.processedVideos.map Prod.snd).map (fun w => w.videoId)) :=
    List.Sublist.map _ (List.filter_sublist _)
  refine hsub.nodup ?_
  rw [List.map_map]
  have : st.processedVideos.map ((fun w => w.videoId) ∘ Prod.snd)
      = st.processedVideos.map Prod.fst :=
    List.map_congr_left (fun p hp => hwf.2 p hp)
  rw [this]
  exact hwf.1

/-- C9.  One retry sweep transforms each stored record independently, exactly
as `retryRecordSpec` describes: non-`failed` records and skipped records are
left unchanged, and each record actually retried gets final status `sent` or
`failed` with `retryCount` increased by the attempts the send made, the send
having been given the remaining budget `maxRetries - retryCount`. -/
theorem retryFailedWebhooks_spec (sendR : WebhookPayload → Nat → WebhookResult)
    (getVideoById : String → Option VideoMetadata) (maxRetries : Nat) (st : State)
    (hwf : State.WF st) (k : String) (v : ProcessedVideo)
    (hlookup : st.processedVideos.lookup k = some v) :
    (PollingScheduler.retryFailedWebhooks sendR getVideoById maxRetries
        st).processedVideos.lookup k
      = some (retryRecordSpec sendR getVideoById maxRetries v) := by
  have hmem : (k, v) ∈ st.processedVideos := lookup_mem _ k v hlookup
  have hvid : v.videoId = k := hwf.2 (k, v) hmem
  rw [retryFailedWebhooks_eq_foldl]
  by_cases hfailed : v.webhookStatus = .failed
  · have hvpend : v ∈ StateManager.getPendingRetries st := by
      rw [StateManager.getPendingRetries]
      exact List.mem_filter.mpr ⟨List.mem_map_of_mem Prod.snd hmem, by simp [hfailed]⟩
    rw [← hvid]
    exact foldl_retryStep_lookup_hit sendR getVideoById maxRetries _ st v hvpend
      (pendingRetries_keys_nodup st hwf) hfailed (hvid ▸ hlookup)
  · have hnot : ∀ w ∈ StateManager.getPendingRetries st, w.videoId ≠ k := by
      intro w hw heq
      have hwv : w ∈ st.processedVideos.map Prod.snd := (List.mem_filter.mp hw).1
      obtain ⟨p, hp, hpw⟩ := List.mem_map.mp hwv
      have hp1 : p.1 = k := by rw [← hwf.2 p hp, hpw, heq]
      have hpmem : (k, w) ∈ st.processedVideos := by
        rw [← hp1, ← hpw]
        exact hp
      have hvw : v = w := nodup_keys_eq _ hwf.1 k v w hmem hpmem
      have hwfail := (List.mem_filter.mp hw).2
      rw [← hvw] at hwfail
      simp [hfailed] at hwfail
    rw [foldl_retryStep_lookup_ne sendR getVideoById maxRetries k _ st hnot, hlookup]
    simp [retryRecordSpec, hfailed]

/-- A store for the C9 witness: a retriable failed record, a failed record at
the retry cap, and a successfully sent record. -/
def stRetry : State :=
  ⟨[("f1", mkRecord "f1" "a" 10 .failed 1),
    ("f2", mkRecord "f2" "a" 11 .failed 3),
    ("s1", mkRecord "s1" "a" 12 .sent 0)], []⟩

/-- A scraper for the C9 witness: only `f1` can still be fetched. -/
def getVideoByIdW : String → Option VideoMetadata :=
  fun id => if id = "f1" then some (mkVideo "f1" "a" 20) else none

/-- Witness for C9: with `maxRetries = 3` and an always-failing send reporting
2 attempts, the sweep updates `f1` to `retryCount = 3` and still `failed`,
skips `f2` (at the cap), and leaves the `sent` record `s1` untouched. -/
theorem retryFailedWebhooks_spec_witness :
    (PollingScheduler.retryFailedWebhooks alwaysFailSend getVideoByIdW 3
        stRetry).processedVideos.lookup "f1"
      = some (mkRecord "f1" "a" 10 .failed 3)
    ∧ (PollingScheduler.retryFailedWebhooks alwaysFailSend getVideoByIdW 3
        stRetry).processedVideos.lookup "f2"
      = some (mkRecord "f2" "a" 11 .failed 3)
    ∧ (PollingScheduler.retryFailedWebhooks alwaysFailSend getVideoByIdW 3
        stRetry).processedVideos.lookup "s1"
      = some (mkRecord "s1" "a" 12 .sent 0) := by
  have hwf : State.WF stRetry := ⟨by decide, by decide⟩
  have h1 := retryFailedWebhooks_spec alwaysFailSend getVideoByIdW 3 stRetry hwf
    "f1" (mkRecord "f1" "a" 10 .failed 1) (by decide)
  have h2 := retryFailedWebhooks_spec alwaysFailSend getVideoByIdW 3 stRetry hwf
    "f2" (mkRecord "f2" "a" 11 .failed 3) (by decide)
  have h3 := retryFailedWebhooks_spec alwaysFailSend getVideoByIdW 3 stRetry hwf
    "s1" (mkRecord "s1" "a" 12 .sent 0) (by decide)
  exact ⟨h1.trans (by decide), h2.trans (by decide), h3.trans (by decide)⟩

/-! ### Normal store operations (C6, C7, C10) -/

/-- The mutating operations of normal store operation (`load`/`save` are
lifecycle hooks and `clear` is test-only, per the source comments). -/
inductive StoreOp where
  | mark (video : ProcessedVideo)
  | updateStatus (videoId : String) (status : WebhookStatus) (retryCount : Option Nat)
  | setLastCheck (author : String) (now : Int)

/-- Apply one store operation. -/
def applyOp (st : State) : StoreOp → State
  | .mark video => StateManager.markProcessed st video
  | .updateStatus videoId status retryCount =>
    (StateManager.updateWebhookStatus st videoId status retryCount).1
  | .setLastCheck author now => StateManager.updateLastCheckTime st author now

/-- Apply a sequence of store operations in order. -/
def applyOps (st : State) (ops : List StoreOp) : State := ops.foldl applyOp st

theorem isProcessed_applyOp (st : State) (op : StoreOp) (id : String)
    (h : StateManager.isProcessed st id = true) :
    StateManager.isProcessed (applyOp st op) id = true := by
  cases op with
  | mark video =>
    rw [StateManager.isProcessed] at h ⊢
    exact lookup_isSome_mapSet video.videoId id video st.processedVideos h
  | updateStatus videoId status retryCount =>
    simp only [applyOp, StateManager.updateWebhookStatus]
    cases hl : st.processedVideos.lookup videoId with
    | none => exact h
    | some v =>
      rw [StateManager.isProcessed] at h ⊢
      exact lookup_isSome_mapSet videoId id _ st.processedVideos h
  | setLastCheck author now => exact h

theorem isProcessed_applyOps : ∀ (ops : List StoreOp) (st : State) (id : String),
    StateManager.isProcessed st id = true →
    StateManager.isProcessed (applyOps st ops) id = true := by
  intro ops
  induction ops with
  | nil => intro st id h; exact h
  | cons op ops ih =>
    intro st id h
    exact ih (applyOp st op) id (isProcessed_applyOp st op id h)

/-- C6.  Once `markProcessed` has recorded a video, `isProcessed` stays true
across every subsequent sequence of normal store operations; `markProcessed` is
idempotent (the second upsert of the same record leaves the store unchanged);
and the stored record is exactly the upserted one. -/
theorem markProcessed_spec (st : State) (video : ProcessedVideo) (ops : List StoreOp) :
    StateManager.isProcessed (applyOps (StateManager.markProcessed st video) ops)
        video.videoId = true
    ∧ StateManager.markProcessed (StateManager.markProcessed st video) video
        = StateManager.markProcessed st video
    ∧ (StateManager.markProcessed st video).processedVideos.lookup video.videoId
        = some video := by
  refine ⟨?_, ?_, ?_⟩
  · refine isProcessed_applyOps ops _ video.videoId ?_
    rw [StateManager.isProcessed, StateManager.markProcessed]
    rw [lookup_mapSet_self]
    rfl
  · simp [StateManager.markProcessed, mapSet_mapSet_self]
  · rw [StateManager.markProcessed]
    exact lookup_mapSet_self video.videoId video st.processedVideos

/-- Totality of the history comparator. -/
theorem historyLe_total (a b : ProcessedVideo) :
    (StateManager.historyLe a b || StateManager.historyLe b a) = true := by
  rw [StateManager.historyLe, StateManager.historyLe]
  rcases Int.le_total a.processedAt b.processedAt with h | h <;> simp [h]

/-- Transitivity of the history comparator. -/
theorem historyLe_trans (a b c : ProcessedVideo)
    (hab : StateManager.historyLe a b = true) (hbc : StateManager.historyLe b c = true) :
    StateManager.historyLe a c = true := by
  rw [StateManager.historyLe] at *
  simp only [decide_eq_true_eq] at *
  omega

theorem getHistory_length (st : State) (limit : Nat) :
    (StateManager.getHistory st limit).length
      = min (min limit DEFAULT_HISTORY_LIMIT) st.processedVideos.length := by
  rw [StateManager.getHistory, List.length_take,
    (List.mergeSort_perm (st.processedVideos.map Prod.snd) StateManager.historyLe).length_eq,
    List.length_map]

/-- C7.  `getHistory(limit)` returns exactly `min(min(limit, 100), count)`
records, sorted by `processedAt` descending; when at most 100 records exist and
the limit is at least the record count it returns all of them (as a
permutation); and with 150 stored records the default call returns exactly
100. -/
theorem getHistory_spec (st : State) (limit : Nat) :
    ((StateManager.getHistory st limit).length
        = min (min limit DEFAULT_HISTORY_LIMIT) st.processedVideos.length)
    ∧ List.Pairwise (fun a b => b.processedAt ≤ a.processedAt)
        (StateManager.getHistory st limit)
    ∧ (st.processedVideos.length ≤ DEFAULT_HISTORY_LIMIT →
        st.processedVideos.length ≤ limit →
        (StateManager.getHistory st limit).Perm (st.processedVideos.map Prod.snd))
    ∧ (st.processedVideos.length = 150 → (StateManager.getHistory st).length = 100) := by
  refine ⟨getHistory_length st limit, ?_, ?_, ?_⟩
  · have hsorted := List.sorted_mergeSort
      historyLe_trans historyLe_total (st.processedVideos.map Prod.snd)
    have hsub := List.Pairwise.sublist (List.take_sublist (min limit DEFAULT_HISTORY_LIMIT)
      ((st.processedVideos.map Prod.snd).mergeSort StateManager.historyLe)) hsorted
    refine List.Pairwise.imp ?_ hsub
    intro a b h
    simpa [StateManager.historyLe] using h
  · intro h100 hlimit
    rw [StateManager.getHistory, List.take_of_length_le ?hlen]
    case hlen =>
      rw [(List.mergeSort_perm (st.processedVideos.map Prod.snd)
        StateManager.historyLe).length_eq, List.length_map]
      rw [DEFAULT_HISTORY_LIMIT] at h100 ⊢
      omega
    exact List.mergeSort_perm _ _
  · intro h150
    rw [getHistory_length st DEFAULT_HISTORY_LIMIT, h150]
    rfl

/-- A store holding 150 distinct records, for the C7 witness. -/
def st150 : State :=
  ⟨(List.range 150).map
    (fun i => (String.mk (encodeNat i), mkRecord (String.mk (encodeNat i)) "a" i .sent 0)),
    []⟩

/-- A store holding a single record, for the C7 witness. -/
def stOne : State := ⟨[("v1", mkRecord "v1" "a" 10 .sent 0)], []⟩

/-- Witness for C7: the default call on the 150-record store returns exactly
100 records, and on a 1-record store `getHistory 10` returns exactly that
record. -/
theorem getHistory_spec_witness :
    (StateManager.getHistory st150).length = 100
    ∧ (StateManager.getHistory stOne 10).Perm [mkRecord "v1" "a" 10 .sent 0] := by
  constructor
  · refine (getHistory_spec st150 0).2.2.2 ?_
    rw [st150]
    simp
  · have h := (getHistory_spec stOne 10).2.2.1 (by decide) (by decide)
    exact h.trans (by decide)

/-- C10.  `updateWebhookStatus` on a video id with no record leaves the store
unchanged and performs no persistence write (the `Bool` component, recording
whether `save()` ran, is `false`), returning without error. -/
theorem updateWebhookStatus_missing (st : State) (videoId : String)
    (status : WebhookStatus) (retryCount : Option Nat)
    (h : st.processedVideos.lookup videoId = none) :
    StateManager.updateWebhookStatus st videoId status retryCount = (st, false) := by
  rw [StateManager.updateWebhookStatus, h]

/-- Witness for C10: updating a status on the empty store does nothing. -/
theorem updateWebhookStatus_missing_witness :
    StateManager.updateWebhookStatus State.empty "v9" .sent (some 2)
      = (State.empty, false) :=
  updateWebhookStatus_missing State.empty "v9" .sent (some 2) rfl

/-! ### Persistence: the JSON document and `save()` / `load()` (C3, C4)

The backing file's content is modelled at the JSON-value level: `JSON.parse`
either throws (the `unparseable` backing state) or produces a `JSVal`. -/

/-- A parsed JSON value. -/
inductive JSVal where
  | null
  | bool (b : Bool)
  | num (n : Int)
  | str (s : String)
  | arr (elems : List JSVal)
  | obj (fields : List (String × JSVal))

/-- Errors `load()` can throw: a `JSON.parse` failure (rethrown, as any
non-`ENOENT` error is), a `TypeError` from accessing a property of `null`, or
an entry outside the typed model's domain (see `decodeVideo`). -/
inductive LoadError where
  | parseError
  | typeError
  | badShape
deriving DecidableEq, Repr

/-- JavaScript truthiness of a JSON value (`NaN` does not arise: numbers are
integral in this model). -/
def jsFalsy : JSVal → Bool
  | .null => true
  | .bool b => !b
  | .num n => decide (n = 0)
  | .str s => s.isEmpty
  | .arr _ => false
  | .obj _ => false

/-- JavaScript property access `value[key]` on a parsed document: throws a
`TypeError` on `null`, returns the field on an object, and is `undefined`
(`none`) on any other value. -/
def jsField : JSVal → String → Except LoadError (Option JSVal)
  | .null, _ => .error .typeError
  | .obj fields, key => .ok (fields.lookup key)
  | _, _ => .ok none

/-- The `value || {}` pattern: an absent or falsy value is replaced by the
empty object. -/
def jsOrEmptyObj : Option JSVal → JSVal
  | none => .obj []
  | some v => if jsFalsy v then .obj [] else v

/-- `Object.entries`: an object's own fields; an array's or string's indexed
elements; empty for other primitives. -/
def jsEntries : JSVal → List (String × JSVal)
  | .obj fields => fields
  | .arr elems => elems.enum.map (fun p => (String.mk (encodeNat p.1), p.2))
  | .str s => s.data.enum.map (fun p => (String.mk (encodeNat p.1), JSVal.str (String.mk [p.2])))
  | _ => []

/-- Serialization of a `webhookStatus` literal. -/
def statusString : WebhookStatus → String
  | .pending => "pending"
  | .sent => "sent"
  | .failed => "failed"

/-- The three status literals of the `ProcessedVideoJSON` union type. -/
def statusOfString (s : String) : Option WebhookStatus :=
  if s = "pending" then some .pending
  else if s = "sent" then some .sent
  else if s = "failed" then some .failed
  else none

theorem statusOfString_statusString (s : WebhookStatus) :
    statusOfString (statusString s) = some s := by
  cases s <;> rfl

/-- Typed read of a string-valued field. -/
def JSVal.strField (j : JSVal) (key : String) : Option String :=
  match j with
  | .obj fields =>
    match fields.lookup key with
    | some (.str s) => some s
    | _ => none
  | _ => none

/-- Typed read of a number-valued field. -/
def JSVal.numField (j : JSVal) (key : String) : Option Int :=
  match j with
  | .obj fields =>
    match fields.lookup key with
    | some (.num n) => some n
    | _ => none
  | _ => none

/-- Required-field read: an absent or ill-typed value is outside the typed
model's domain. -/
def req {α : Type} : Option α → Except LoadError α
  | some a => .ok a
  | none => .error .badShape

/-- The `.map(([key, value]) => [key, …])` conversion over the entries, with
the typed decoding threaded through. -/
def decodeEntries {α : Type} (f : String × JSVal → Except LoadError (String × α)) :
    List (String × JSVal) → Except LoadError (List (String × α))
  | [] => .ok []
  | p :: rest => do
    let a ← f p
    let as ← decodeEntries f rest
    pure (a :: as)

theorem except_ok_bind {α β : Type} (a : α) (f : α → Except LoadError β) :
    (Except.ok a >>= f) = f a := rfl

namespace StateManager

/-- One record serialized as `ProcessedVideoJSON`: the object spread keeps the
field order and replaces `processedAt` with its `toISOString` rendering. -/
def videoToJson (v : ProcessedVideo) : JSVal :=
  .obj [("videoId", .str v.videoId),
        ("author", .str v.author),
        ("processedAt", .str (isoOfTime v.processedAt)),
        ("webhookStatus", .str (statusString v.webhookStatus)),
        ("retryCount", .num (Int.ofNat v.retryCount))]

/-- `save()`: the `StateJSON` document written to the backing file (the
filesystem write and `mkdir` carry no model state, so `save` is the
serialization itself). -/
def save (st : State) : JSVal :=
  .obj [("processedVideos",
          .obj (st.processedVideos.map (fun p => (p.1, videoToJson p.2)))),
        ("lastCheckTimes",
          .obj (st.lastCheckTimes.map (fun p => (p.1, JSVal.str (isoOfTime p.2)))))]

/-- Decode one `processedVideos` entry: the runtime conversion
`{...value, processedAt: new Date(value.processedAt)}` read back at the
`ProcessedVideoJSON` type.  The JavaScript runtime performs no validation and
would retain an ill-typed value as-is; an entry that does not carry the
`ProcessedVideoJSON` field types is outside this typed model's domain and is
flagged `badShape` (no theorem below concerns such entries). -/
def decodeVideo (j : JSVal) : Except LoadError ProcessedVideo := do
  let videoId ← req (j.strField "videoId")
  let author ← req (j.strField "author")
  let processedAtStr ← req (j.strField "processedAt")
  let statusStr ← req (j.strField "webhookStatus")
  let retryCountInt ← req (j.numField "retryCount")
  let processedAt ← req (timeOfIso processedAtStr)
  let status ← req (statusOfString statusStr)
  if 0 ≤ retryCountInt then
    pure ⟨videoId, author, processedAt, status, retryCountInt.toNat⟩
  else .error .badShape

/-- Decode one `processedVideos` map entry, keeping its key. -/
def decodeVideoEntry (p : String × JSVal) : Except LoadError (String × ProcessedVideo) :=
  (decodeVideo p.2).map (fun v => (p.1, v))

/-- Decode one `lastCheckTimes` entry (`new Date(value)` on the stored
string). -/
def decodeTimeEntry (p : String × JSVal) : Except LoadError (String × Int) :=
  match p.2 with
  | .str s =>
    match timeOfIso s with
    | some t => .ok (p.1, t)
    | none => .error .badShape
  | _ => .error .badShape

/-- The backing medium as `load()` observes it: the file is missing
(`ENOENT`), present but not valid JSON (`JSON.parse` throws), or parsed. -/
inductive BackingData where
  | missing
  | unparseable
  | parsed (document : JSVal)

/-- The conversion `load()` performs on a parsed document:
`Object.entries(parsed.processedVideos || {})` and
`Object.entries(parsed.lastCheckTimes || {})`, each entry converted with
`new Date` on its timestamp. -/
def loadFromJson (parsed : JSVal) : Except LoadError State := do
  let pvField ← jsField parsed "processedVideos"
  let lcField ← jsField parsed "lastCheckTimes"
  let processedVideos ← decodeEntries decodeVideoEntry (jsEntries (jsOrEmptyObj pvField))
  let lastCheckTimes ← decodeEntries decodeTimeEntry (jsEntries (jsOrEmptyObj lcField))
  pure ⟨processedVideos, lastCheckTimes⟩

/-- `load()`: a missing backing file yields the empty state; a file that fails
`JSON.parse` rethrows the parse error; otherwise the parsed document is
converted. -/
def load : BackingData → Except LoadError State
  | .missing => .ok State.empty
  | .unparseable => .error .parseError
  | .parsed document => loadFromJson document

end StateManager

/-- Structural well-shapedness of one entry against the source's
`ProcessedVideoJSON` interface. -/
def isVideoJsonShape (j : JSVal) : Bool :=
  match j.strField "videoId", j.strField "author", j.strField "processedAt",
      j.strField "webhookStatus", j.numField "retryCount" with
  | some _, some _, some _, some ws, some _ => (statusOfString ws).isSome
  | _, _, _, _, _ => false

/-- Structural well-shapedness of a document against the source's `StateJSON`
interface. -/
def isStateJsonShape (j : JSVal) : Bool :=
  match j with
  | .obj fields =>
    match fields.lookup "processedVideos", fields.lookup "lastCheckTimes" with
    | some (.obj pvs), some (.obj lcs) =>
      pvs.all (fun p => isVideoJsonShape p.2)
        && lcs.all (fun p => match p.2 with | .str _ => true | _ => false)
    | _, _ => false
  | _ => false

theorem decodeVideo_videoToJson (v : ProcessedVideo) :
    StateManager.decodeVideo (StateManager.videoToJson v) = .ok v := by
  have h1 : (StateManager.videoToJson v).strField "videoId" = some v.videoId := rfl
  have h2 : (StateManager.videoToJson v).strField "author" = some v.author := rfl
  have h3 : (StateManager.videoToJson v).strField "processedAt"
      = some (isoOfTime v.processedAt) := rfl
  have h4 : (StateManager.videoToJson v).strField "webhookStatus"
      = some (statusString v.webhookStatus) := rfl
  have h5 : (StateManager.videoToJson v).numField "retryCount"
      = some (Int.ofNat v.retryCount) := rfl
  rw [StateManager.decodeVideo, h1, h2, h3, h4, h5]
  simp only [req, except_ok_bind, timeOfIso_isoOfTime, statusOfString_statusString]
  have hnn : 0 ≤ Int.ofNat v.retryCount := Int.natCast_nonneg v.retryCount
  rw [if_pos hnn]
  rfl

theorem decodeEntries_videoToJson (l : List (String × ProcessedVideo)) :
    decodeEntries StateManager.decodeVideoEntry
      (l.map (fun p => (p.1, StateManager.videoToJson p.2))) = Except.ok l := by
  induction l with
  | nil => rfl
  | cons p rest ih =>
    have hp : StateManager.decodeVideoEntry (p.1, StateManager.videoToJson p.2)
        = .ok (p.1, p.2) := by
      rw [StateManager.decodeVideoEntry, decodeVideo_videoToJson]
      rfl
    rw [List.map_cons, decodeEntries, hp]
    simp only [except_ok_bind, ih]
    rfl

theorem decodeEntries_timeEntry (l : List (String × Int)) :
    decodeEntries StateManager.decodeTimeEntry
      (l.map (fun p => (p.1, JSVal.str (isoOfTime p.2)))) = Except.ok l := by
  induction l with
  | nil => rfl
  | cons p rest ih =>
    have hp : StateManager.decodeTimeEntry (p.1, JSVal.str (isoOfTime p.2))
        = .ok (p.1, p.2) := by
      simp only [StateManager.decodeTimeEntry, timeOfIso_isoOfTime]
    rw [List.map_cons, decodeEntries, hp]
    simp only [except_ok_bind, ih]
    rfl

theorem jsEntries_orEmpty_obj (l : List (String × JSVal)) :
    jsEntries (jsOrEmptyObj (some (.obj l))) = l := rfl

theorem load_save_aux (st : State) :
    StateManager.load (.parsed (StateManager.save st)) = .ok st := by
  have hpv : jsField (StateManager.save st) "processedVideos"
      = .ok (some (.obj (st.processedVideos.map
          (fun p => (p.1, StateManager.videoToJson p.2))))) := rfl
  have hlc : jsField (StateManager.save st) "lastCheckTimes"
      = .ok (some (.obj (st.lastCheckTimes.map
          (fun p => (p.1, JSVal.str (isoOfTime p.2)))))) := rfl
  rw [StateManager.load, StateManager.loadFromJson]
  rw [hpv, hlc]
  simp only [except_ok_bind, jsEntries_orEmpty_obj, decodeEntries_videoToJson,
    decodeEntries_timeEntry]
  rfl

/-- C4.  A `save()` followed by `load()` reproduces the store exactly: the
reloaded state is equal to the saved one field for field, hence `isProcessed`,
`getHistory` and `getLastCheckTime` answer identically on it. -/
theorem save_load_roundtrip (st : State) :
    StateManager.load (.parsed (StateManager.save st)) = .ok st
    ∧ (∀ st2 : State, StateManager.load (.parsed (StateManager.save st)) = .ok st2 →
        (∀ id, StateManager.isProcessed st2 id = StateManager.isProcessed st id)
        ∧ (∀ limit, StateManager.getHistory st2 limit = StateManager.getHistory st limit)
        ∧ (∀ author, StateManager.getLastCheckTime st2 author
            = StateManager.getLastCheckTime st author)) := by
  have h := load_save_aux st
  refine ⟨h, ?_⟩
  intro st2 h2
  rw [h] at h2
  have heq : st2 = st := (Except.ok.inj h2).symm
  subst heq
  exact ⟨fun id => rfl, fun limit => rfl, fun author => rfl⟩

/-- Witness for C4: the one-record store round-trips and the reloaded store
answers `isProcessed` identically. -/
theorem save_load_roundtrip_witness :
    ∃ st2 : State, StateManager.load (.parsed (StateManager.save stOne)) = .ok st2
      ∧ StateManager.isProcessed st2 "v1" = StateManager.isProcessed stOne "v1" := by
  have h := save_load_roundtrip stOne
  exact ⟨stOne, h.1, (h.2 stOne h.1).1 "v1"⟩

/-- Counterexample to C3 as stated: the JSON document `[]` parses but is not a
well-shaped `StateJSON`, yet `load()` accepts it and returns the empty store
instead of raising a fatal error. -/
theorem load_malformed_counterexample :
    isStateJsonShape (.arr []) = false
    ∧ StateManager.load (.parsed (.arr [])) = .ok State.empty :=
  ⟨rfl, rfl⟩

/-- C3 (amended).  `load()` on a missing backing file yields the empty
initialized store without error; backing input that fails JSON parsing raises
a fatal initialization error, as does a parsed `null` document (the property
access throws); but a JSON-parseable document of the wrong shape, such as a
JSON array, is accepted with the missing collections treated as empty rather
than raising. -/
theorem load_spec :
    StateManager.load .missing = .ok State.empty
    ∧ StateManager.load .unparseable = .error .parseError
    ∧ StateManager.load (.parsed .null) = .error .typeError
    ∧ StateManager.load (.parsed (.arr [])) = .ok State.empty :=
  ⟨rfl, rfl, rfl, rfl⟩

end TiktokMonitor
